import Mathlib

/-!
Verification of the hyper-req-log crate: a shallow embedding of the
Safe-Token Encoder (src/escaped.rs), the LogDisplay capability
(src/display.rs) and the LogRequest record lifecycle (src/request.rs),
together with theorems settling the specification claims.

Bytes and Unicode scalar values are modelled as `Nat`; written text is a
`List Nat` of Unicode scalar values.  Functions that can panic in the
source return `Option`, with `none` marking the panic.
-/

set_option maxRecDepth 10000

/-- Unicode scalar values of a string literal, used to write concrete
byte/char sequences. -/
def codes (s : String) : List Nat :=
  s.toList.map Char.toNat

/-- `char::is_ascii_graphic`: `!` (0x21) through `~` (0x7e). -/
def isAsciiGraphic (c : Nat) : Bool :=
  0x21 ≤ c && c ≤ 0x7e

/-- UTF-8 continuation byte: `0x80..=0xbf`. -/
def isCont (b : Nat) : Bool :=
  0x80 ≤ b && b ≤ 0xbf

/-- Valid (first, second) byte pairs for a three-byte UTF-8 sequence,
from `core::str::validations::run_utf8_validation`. -/
def valid3Pair (b b2 : Nat) : Bool :=
  (b == 0xe0 && 0xa0 ≤ b2 && b2 ≤ 0xbf) ||
  (0xe1 ≤ b && b ≤ 0xec && isCont b2) ||
  (b == 0xed && 0x80 ≤ b2 && b2 ≤ 0x9f) ||
  (0xee ≤ b && b ≤ 0xef && isCont b2)

/-- Valid (first, second) byte pairs for a four-byte UTF-8 sequence,
from `core::str::validations::run_utf8_validation`. -/
def valid4Pair (b b2 : Nat) : Bool :=
  (b == 0xf0 && 0x90 ≤ b2 && b2 ≤ 0xbf) ||
  (0xf1 ≤ b && b ≤ 0xf3 && isCont b2) ||
  (b == 0xf4 && 0x80 ≤ b2 && b2 ≤ 0x8f)

/-- Extend a decoding with one decoded scalar of byte width `w`, or
shift the error offsets past it (the accounting `run_utf8_validation`
does as it advances `index`). -/
def okCons (c w : Nat) (r : Except (Nat × Option Nat) (List Nat)) :
    Except (Nat × Option Nat) (List Nat) :=
  match r with
  | .ok cs => .ok (c :: cs)
  | .error (v, el) => .error (v + w, el)

/-- `std::str::from_utf8`, embedded from
`core::str::validations::run_utf8_validation`.  On success, returns the
decoded Unicode scalar values; on failure, returns
`(valid_up_to, error_len)` exactly as `Utf8Error` reports them
(`error_len = none` when the input ended in a possibly-valid prefix of a
multi-byte sequence). -/
def utf8Decode : List Nat → Except (Nat × Option Nat) (List Nat)
  | [] => .ok []
  | b :: rest =>
    if b ≤ 0x7f then okCons b 1 (utf8Decode rest)
    else if 0xc2 ≤ b && b ≤ 0xdf then
      match rest with
      | [] => .error (0, none)
      | b2 :: rest2 =>
        if isCont b2 then
          okCons ((b % 0x20) * 0x40 + b2 % 0x40) 2 (utf8Decode rest2)
        else .error (0, some 1)
    else if 0xe0 ≤ b && b ≤ 0xef then
      match rest with
      | [] => .error (0, none)
      | b2 :: rest2 =>
        if valid3Pair b b2 then
          match rest2 with
          | [] => .error (0, none)
          | b3 :: rest3 =>
            if isCont b3 then
              okCons ((b % 0x10) * 0x1000 + (b2 % 0x40) * 0x40 + b3 % 0x40) 3
                (utf8Decode rest3)
            else .error (0, some 2)
        else .error (0, some 1)
    else if 0xf0 ≤ b && b ≤ 0xf4 then
      match rest with
      | [] => .error (0, none)
      | b2 :: rest2 =>
        if valid4Pair b b2 then
          match rest2 with
          | [] => .error (0, none)
          | b3 :: rest3 =>
            if isCont b3 then
              match rest3 with
              | [] => .error (0, none)
              | b4 :: rest4 =>
                if isCont b4 then
                  okCons ((b % 0x8) * 0x40000 + (b2 % 0x40) * 0x1000 +
                          (b3 % 0x40) * 0x40 + b4 % 0x40) 4 (utf8Decode rest4)
                else .error (0, some 3)
            else .error (0, some 2)
        else .error (0, some 1)
    else .error (0, some 1)

/-- Unfolding equation for `utf8Decode` on a nonempty input. -/
theorem utf8Decode_cons (b : Nat) (rest : List Nat) :
    utf8Decode (b :: rest) =
    (if b ≤ 0x7f then okCons b 1 (utf8Decode rest)
    else if 0xc2 ≤ b && b ≤ 0xdf then
      match rest with
      | [] => .error (0, none)
      | b2 :: rest2 =>
        if isCont b2 then
          okCons ((b % 0x20) * 0x40 + b2 % 0x40) 2 (utf8Decode rest2)
        else .error (0, some 1)
    else if 0xe0 ≤ b && b ≤ 0xef then
      match rest with
      | [] => .error (0, none)
      | b2 :: rest2 =>
        if valid3Pair b b2 then
          match rest2 with
          | [] => .error (0, none)
          | b3 :: rest3 =>
            if isCont b3 then
              okCons ((b % 0x10) * 0x1000 + (b2 % 0x40) * 0x40 + b3 % 0x40) 3
                (utf8Decode rest3)
            else .error (0, some 2)
        else .error (0, some 1)
    else if 0xf0 ≤ b && b ≤ 0xf4 then
      match rest with
      | [] => .error (0, none)
      | b2 :: rest2 =>
        if valid4Pair b b2 then
          match rest2 with
          | [] => .error (0, none)
          | b3 :: rest3 =>
            if isCont b3 then
              match rest3 with
              | [] => .error (0, none)
              | b4 :: rest4 =>
                if isCont b4 then
                  okCons ((b % 0x8) * 0x40000 + (b2 % 0x40) * 0x1000 +
                          (b3 % 0x40) * 0x40 + b4 % 0x40) 4 (utf8Decode rest4)
                else .error (0, some 3)
            else .error (0, some 2)
        else .error (0, some 1)
    else .error (0, some 1) : Except (Nat × Option Nat) (List Nat)) := by
  cases rest with
  | nil => rfl
  | cons b2 rest2 =>
    cases rest2 with
    | nil => rfl
    | cons b3 rest3 =>
      cases rest3 with
      | nil => rfl
      | cons b4 rest4 => rfl

/-- Lowercase hex digit for a value below 16 (`0`-`9`, `a`-`f`). -/
def hexDigit (d : Nat) : Nat :=
  if d < 10 then 0x30 + d else 0x57 + d

/-- Lowercase hex digits of `n`, most significant first, no leading
zeros (the rendering of Rust format `{:x}`), driven by fuel. -/
def hexDigitsF : Nat → Nat → List Nat
  | 0, _ => []
  | fuel + 1, n =>
    if n < 16 then [hexDigit n] else hexDigitsF fuel (n / 16) ++ [hexDigit (n % 16)]

/-- Lowercase hex rendering of `n` (Rust `{:x}`). -/
def natHex (n : Nat) : List Nat :=
  hexDigitsF (n + 1) n

/-- Decimal digits of `n`, most significant first (Rust `{}` on an
unsigned integer), driven by fuel. -/
def decDigitsF : Nat → Nat → List Nat
  | 0, _ => []
  | fuel + 1, n =>
    if n < 10 then [0x30 + n] else decDigitsF fuel (n / 10) ++ [0x30 + n % 10]

/-- Decimal rendering of `n` (Rust `{}`). -/
def natDecimal (n : Nat) : List Nat :=
  decDigitsF (n + 1) n

/-- `char::escape_debug` of scalar `c`, from
`core::char::methods::escape_debug_ext` with both quote escapes enabled.
Printability of non-special characters is Unicode-table driven in Rust;
it is abstracted as the parameter `p`. -/
def escapeDebug (p : Nat → Bool) (c : Nat) : List Nat :=
  if c = 0x00 then [0x5c, 0x30]
  else if c = 0x09 then [0x5c, 0x74]
  else if c = 0x0d then [0x5c, 0x72]
  else if c = 0x0a then [0x5c, 0x6e]
  else if c = 0x5c then [0x5c, 0x5c]
  else if c = 0x27 then [0x5c, 0x27]
  else if c = 0x22 then [0x5c, 0x22]
  else if p c then [c]
  else [0x5c, 0x75, 0x7b] ++ natHex c ++ [0x7d]

/-- Per-character escaping in a valid-text run of `Escaped::fmt`
(src/escaped.rs lines 39-47): backslash doubles, non-ASCII-graphic
characters go through `escape_debug`, everything else is verbatim. -/
def escapeChar (p : Nat → Bool) (c : Nat) : List Nat :=
  if c = 0x5c then [0x5c, 0x5c]
  else if !(isAsciiGraphic c) then escapeDebug p c
  else [c]

/-- A byte of an invalid run rendered by `Escaped::fmt` line 59:
format `\xHH`, lowercase, two digits. -/
def escapeByte (b : Nat) : List Nat :=
  [0x5c, 0x78, hexDigit (b / 16), hexDigit (b % 16)]

/-- Scalar values decoded from bytes that are known to be valid UTF-8
(total projection of `utf8Decode`, used for the re-decode the source
performs after `range.end = range.start + e.valid_up_to()`). -/
def utf8Chars (bytes : List Nat) : List Nat :=
  match utf8Decode bytes with
  | .ok cs => cs
  | .error _ => []

/-- The body of the quote-wrapped loop of `Escaped::fmt`
(src/escaped.rs lines 29-68) on the remaining suffix of the input,
driven by fuel.  `none` models the panic at line 58: when
`e.valid_up_to() == 0` and `e.error_len() == Some l`, the source sets
`range.end = range.start + l + 1` and indexes `self.bytes[range]`,
which is out of bounds when `l + 1` exceeds the remaining length. -/
def escapeRestF (p : Nat → Bool) : Nat → List Nat → Option (List Nat)
  | 0, bytes => if bytes.isEmpty then some [] else none
  | _, [] => some []
  | fuel + 1, b :: bs =>
    match utf8Decode (b :: bs) with
    | .ok cs => some (cs.flatMap (escapeChar p))
    | .error (vut, el) =>
      if vut = 0 then
        match el with
        | some l =>
          if (b :: bs).length < l + 1 then none
          else
            match escapeRestF p fuel ((b :: bs).drop (l + 1)) with
            | some out => some (((b :: bs).take (l + 1)).flatMap escapeByte ++ out)
            | none => none
        | none => some ((b :: bs).flatMap escapeByte)
      else
        match escapeRestF p fuel ((b :: bs).drop vut) with
        | some out => some ((utf8Chars ((b :: bs).take vut)).flatMap (escapeChar p) ++ out)
        | none => none

/-- The quote-wrapped loop of `Escaped::fmt` on a suffix of the input. -/
def escapeRest (p : Nat → Bool) (bytes : List Nat) : Option (List Nat) :=
  escapeRestF p bytes.length bytes

/-- `Escaped::fmt` (src/escaped.rs lines 24-70): the Safe-Token
Encoder.  Returns the written text, or `none` when the source panics.
`p` abstracts `char`-printability for `escape_debug` (Unicode tables). -/
def escapedRender (p : Nat → Bool) (bytes : List Nat) : Option (List Nat) :=
  if bytes.isEmpty then some [0x22, 0x22]
  else
    match utf8Decode bytes with
    | .ok cs =>
      if cs.all (fun c => isAsciiGraphic c && c != 0x5c) then some cs
      else some (0x22 :: cs.flatMap (escapeChar p) ++ [0x22])
    | .error _ =>
      match escapeRest p bytes with
      | some out => some (0x22 :: out ++ [0x22])
      | none => none

/-- A concrete printability predicate agreeing with Rust on ASCII
(controls and DEL are unprintable, the rest of ASCII printable), used
to instantiate witnesses. -/
def printableAscii (c : Nat) : Bool :=
  0x20 ≤ c && c ≤ 0x7e

example : escapedRender printableAscii [] = some (codes "\"\"") := by decide
example : escapedRender printableAscii (codes "hello") = some (codes "hello") := by decide
example : escapedRender printableAscii (codes "hello world") =
    some (codes "\"hello world\"") := by decide
example : escapedRender printableAscii (codes "back\\slash") =
    some (codes "\"back\\\\slash\"") := by decide
example : escapedRender printableAscii (codes "bad utf8 " ++ [0xc3, 0x28] ++ codes "!") =
    some (codes "\"bad utf8 \\xc3\\x28!\"") := by decide
example : escapedRender printableAscii (codes "bad utf8 " ++ [0xc3, 0x28]) =
    some (codes "\"bad utf8 \\xc3\\x28\"") := by decide
example : escapedRender printableAscii ([0xc3, 0x28] ++ codes " bad utf8") =
    some (codes "\"\\xc3\\x28 bad utf8\"") := by decide

/-!
## The escaping grammar

`scanStep`/`scanTok` formalise the Safe-Token shape from the spec: a
left-to-right scan in which every backslash must begin one of the
recognized escape forms (`\\`, `\n`, `\t`, `\r`, `\0`, `\xHH`,
`\u{HEX+}`), and every character outside an escape form must satisfy the
verbatim-character predicate `ok`. -/

inductive ScanSt where
  | plain
  | esc
  | hexTwo
  | hexOne
  | ubrace
  | uhex (seen : Bool)
deriving DecidableEq, BEq

/-- Lowercase hexadecimal digit characters. -/
def isHexDigitCode (c : Nat) : Bool :=
  (0x30 ≤ c && c ≤ 0x39) || (0x61 ≤ c && c ≤ 0x66)

def scanStep (ok : Nat → Bool) : Option ScanSt → Nat → Option ScanSt
  | none, _ => none
  | some .plain, c =>
    if c = 0x5c then some .esc else if ok c then some .plain else none
  | some .esc, c =>
    if c = 0x5c || c = 0x6e || c = 0x74 || c = 0x72 || c = 0x30 then some .plain
    else if c = 0x78 then some .hexTwo
    else if c = 0x75 then some .ubrace
    else none
  | some .hexTwo, c => if isHexDigitCode c then some .hexOne else none
  | some .hexOne, c => if isHexDigitCode c then some .plain else none
  | some .ubrace, c => if c = 0x7b then some (.uhex false) else none
  | some (.uhex seen), c =>
    if isHexDigitCode c then some (.uhex true)
    else if c = 0x7d && seen then some .plain else none

/-- The text satisfies the escaping grammar with verbatim-character
predicate `ok`: in particular it contains no unescaped backslash and no
verbatim character outside `ok`. -/
def scanTok (ok : Nat → Bool) (t : List Nat) : Bool :=
  decide (List.foldl (scanStep ok) (some ScanSt.plain) t = some ScanSt.plain)

/-!
## The request log record (src/request.rs)

External renderings that the record only passes through are modelled by
their text: `method`, `uri`, `version` hold the `Display`/`Debug` text
of the corresponding hyper values, `v6R` abstracts `Ipv6Addr`'s
`Display`, `eR` abstracts the `Debug` text of the elapsed `Duration`,
and `actionR` is the `Display` rendering of the action type `A`.
Header values and the user string are byte sequences. -/

/-- `std::net::SocketAddr`. -/
inductive RemoteAddr where
  | v4 (a b c d : Nat) (port : Nat)
  | v6 (octets : List Nat) (port : Nat)

/-- The IPv4-mapped pattern match of src/request.rs line 126: 10 zero
bytes, then `0xFF 0xFF`, then the 4 IPv4 bytes. -/
def v4MappedOctets : List Nat → Option (Nat × Nat × Nat × Nat)
  | [0, 0, 0, 0, 0, 0, 0, 0, 0, 0, 0xff, 0xff, a, b, c, d] => some (a, b, c, d)
  | _ => none

/-- The dotted-quad text `a.b.c.d`. -/
def dottedQuad (a b c d : Nat) : List Nat :=
  natDecimal a ++ [0x2e] ++ natDecimal b ++ [0x2e] ++ natDecimal c ++ [0x2e] ++
  natDecimal d

/-- The remote-address arm of `LogRequest::fmt` (src/request.rs lines
121-134). -/
def remoteRender (v6R : List Nat → List Nat) : Option RemoteAddr → List Nat
  | some (.v4 a b c d port) =>
    dottedQuad a b c d ++ [0x3a] ++ natDecimal port
  | some (.v6 octs port) =>
    (match v4MappedOctets octs with
     | some (a, b, c, d) => dottedQuad a b c d
     | none => v6R octs) ++ [0x3a] ++ natDecimal port
  | none => codes "<unknown-remote>"

/-- `fwd.strip_prefix(b"::ffff:").unwrap_or(fwd)` (src/request.rs
line 138). -/
def stripMappedMarker (fwd : List Nat) : List Nat :=
  match fwd with
  | 0x3a :: 0x3a :: 0x66 :: 0x66 :: 0x66 :: 0x66 :: 0x3a :: rest => rest
  | _ => fwd

/-- A byte sink (`io::Write`): the chunks written so far, and whether
writes fail. -/
structure Sink where
  buf : List (List Nat)
  fail : Bool
deriving DecidableEq

/-- One write call against the sink: appends the data, or fails with an
I/O error leaving the sink unchanged. -/
def sinkWrite (s : Sink) (data : List Nat) : Sink × Except Unit Unit :=
  if s.fail then (s, .error ())
  else ({ buf := s.buf ++ [data], fail := s.fail }, .ok ())

/-- `LogRequest` (src/request.rs lines 17-31).  `startTime` stands for
the `Instant` captured at construction; it only influences the elapsed
duration, whose rendered text is the `eR` parameter below. -/
structure LogRequest (A : Type) where
  startTime : Nat
  logged : Bool
  user : Option (List Nat)
  remote : Option RemoteAddr
  fwd : Option (List Nat)
  host : Option (List Nat)
  method : List Nat
  uri : List Nat
  version : List Nat
  userAgent : Option (List Nat)
  referer : Option (List Nat)
  action : Option A
  status : Option Nat

/-- `LogRequest::fmt` (src/request.rs lines 106-155): the full log
line, `none` when a panicking `Escaped` rendering aborts it. -/
def recordRender {A : Type} (p : Nat → Bool) (v6R : List Nat → List Nat)
    (actionR : A → List Nat) (eR : List Nat) (r : LogRequest A) :
    Option (List Nat) :=
  Option.bind
    (match r.user with
     | some u => (escapedRender p u).map (fun t => t ++ [0x20])
     | none => some []) (fun userSeg =>
  Option.bind
    (match r.fwd with
     | some fw => (escapedRender p (stripMappedMarker fw)).map
         (fun t => [0x2f] ++ t)
     | none => some []) (fun fwdSeg =>
  Option.bind (escapedRender p (r.host.getD [])) (fun hostTok =>
  Option.bind (escapedRender p (r.userAgent.getD [])) (fun uaTok =>
  Option.bind (escapedRender p (r.referer.getD [])) (fun refTok =>
  some (codes "request: [" ++
    (match r.action with
     | some a => actionR a ++ [0x3a]
     | none => []) ++
    (match r.status with
     | some s => natDecimal s
     | none => codes "???") ++
    codes "] " ++
    userSeg ++
    remoteRender v6R r.remote ++
    fwdSeg ++
    [0x20] ++ hostTok ++
    [0x20] ++ r.method ++
    [0x20] ++ r.uri ++
    [0x20] ++ r.version ++
    [0x20] ++ uaTok ++
    [0x20] ++ refTok ++
    [0x20] ++ eR ++ [0x0a]))))))

/-- `LogRequest::internal_write` (src/request.rs lines 95-98): format
the record and make one write call against the sink.  `none` models a
panic inside formatting. -/
def internalWrite {A : Type} (p : Nat → Bool) (v6R : List Nat → List Nat)
    (actionR : A → List Nat) (eR : List Nat) (r : LogRequest A) (s : Sink) :
    Option (Sink × Except Unit Unit) :=
  (recordRender p v6R actionR eR r).map (fun t => sinkWrite s t)

/-- `LogRequest::write` (src/request.rs lines 90-93): set the logged
flag, then write; returns the record state that will later be dropped,
together with the write outcome. -/
def writeLog {A : Type} (p : Nat → Bool) (v6R : List Nat → List Nat)
    (actionR : A → List Nat) (eR : List Nat) (r : LogRequest A) (s : Sink) :
    LogRequest A × Option (Sink × Except Unit Unit) :=
  let r2 := { r with logged := true }
  (r2, internalWrite p v6R actionR eR r2 s)

/-- `Drop for LogRequest` (src/request.rs lines 158-164): when still
unlogged, write to the default (stderr) sink and swallow the I/O
outcome.  Returns the resulting stderr sink; `none` models a panic
inside formatting. -/
def dropLog {A : Type} (p : Nat → Bool) (v6R : List Nat → List Nat)
    (actionR : A → List Nat) (eR : List Nat) (r : LogRequest A) (stderr : Sink) :
    Option Sink :=
  if r.logged then some stderr
  else (internalWrite p v6R actionR eR r stderr).map (fun x => x.1)

/-- `LogRequest::discard` (src/request.rs lines 100-102). -/
def discardLog {A : Type} (r : LogRequest A) : LogRequest A :=
  { r with logged := true }

/-!
## The display capability (src/display.rs) -/

/-- An implementation of the `LogDisplay` trait: the type's `Debug`
rendering and the rendering `LogDisplay::fmt` actually uses. -/
structure LogDisplayImpl (A : Type) where
  debugR : A → List Nat
  logR : A → List Nat

/-- An impl that keeps the trait's provided default body
(src/display.rs lines 4-8): `LogDisplay::fmt` falls back to `Debug`. -/
def defaultLogDisplay {A : Type} (debugR : A → List Nat) : LogDisplayImpl A :=
  { debugR := debugR, logR := debugR }

/-- The provided `impl LogDisplay for &str` (src/display.rs lines
10-14): bare strings are written verbatim with `write_str`. -/
def strLogDisplay (debugR : List Nat → List Nat) : LogDisplayImpl (List Nat) :=
  { debugR := debugR, logR := fun s => s }

/-- Modelled from the spec: the claim that the Record's emission
renders the action "through this capability" — the record line as it
would be if the action were rendered by `LogDisplay::fmt` of the given
impl (the code instead bounds the action by `std::fmt::Display` and
never mentions `LogDisplay`). -/
def recordRenderViaCapability {A : Type} (p : Nat → Bool)
    (v6R : List Nat → List Nat) (ld : LogDisplayImpl A) (eR : List Nat)
    (r : LogRequest A) : Option (List Nat) :=
  recordRender p v6R ld.logR eR r

/-- The `Debug` rendering of a Rust string none of whose characters
needs escaping: quote-wrapped verbatim content. -/
def stringDebugQuote (s : List Nat) : List Nat :=
  0x22 :: s ++ [0x22]

/-!
## Character-level facts about the escape building blocks -/

theorem hexDigit_isHex {d : Nat} (h : d < 16) : isHexDigitCode (hexDigit d) = true := by
  simp only [hexDigit, isHexDigitCode]
  split <;> simp <;> omega

theorem isHexDigitCode_graphic {d : Nat} (h : isHexDigitCode d = true) :
    isAsciiGraphic d = true := by
  simp only [isHexDigitCode, Bool.or_eq_true, Bool.and_eq_true, decide_eq_true_eq] at h
  simp only [isAsciiGraphic, Bool.and_eq_true, decide_eq_true_eq]
  omega

theorem hexDigitsF_mem {fuel n d : Nat} (h : d ∈ hexDigitsF fuel n) :
    isHexDigitCode d = true := by
  induction fuel generalizing n with
  | zero => simp [hexDigitsF] at h
  | succ fuel ih =>
    simp only [hexDigitsF] at h
    split at h
    · simp only [List.mem_singleton] at h
      subst h
      exact hexDigit_isHex (by omega)
    · rcases List.mem_append.1 h with h2 | h2
      · exact ih h2
      · simp only [List.mem_singleton] at h2
        subst h2
        exact hexDigit_isHex (Nat.mod_lt _ (by omega))

theorem natHex_mem {n d : Nat} (h : d ∈ natHex n) : isHexDigitCode d = true :=
  hexDigitsF_mem h

theorem hexDigitsF_ne_nil (fuel n : Nat) : hexDigitsF (fuel + 1) n ≠ [] := by
  simp only [hexDigitsF]
  split
  · simp
  · simp

theorem natHex_ne_nil (n : Nat) : natHex n ≠ [] := hexDigitsF_ne_nil n n

theorem decDigitsF_mem {fuel n d : Nat} (h : d ∈ decDigitsF fuel n) :
    0x30 ≤ d ∧ d ≤ 0x39 := by
  induction fuel generalizing n with
  | zero => simp [decDigitsF] at h
  | succ fuel ih =>
    simp only [decDigitsF] at h
    split at h
    · simp only [List.mem_singleton] at h
      omega
    · rcases List.mem_append.1 h with h2 | h2
      · exact ih h2
      · simp only [List.mem_singleton] at h2
        have := Nat.mod_lt n (show 0 < 10 by omega)
        omega

theorem natDecimal_mem {n d : Nat} (h : d ∈ natDecimal n) : 0x30 ≤ d ∧ d ≤ 0x39 :=
  decDigitsF_mem h

theorem natDecimal_graphic {n d : Nat} (h : d ∈ natDecimal n) :
    isAsciiGraphic d = true := by
  have := natDecimal_mem h
  simp only [isAsciiGraphic, Bool.and_eq_true, decide_eq_true_eq]
  omega

theorem escapeDebug_mem {p : Nat → Bool} {c x : Nat} (h : x ∈ escapeDebug p c) :
    isAsciiGraphic x = true ∨ p x = true := by
  simp only [escapeDebug] at h
  repeat' split at h
  all_goals
    simp only [List.mem_cons, List.mem_append, List.mem_singleton,
      List.not_mem_nil, or_false] at h
  all_goals first
    | (rcases h with rfl | rfl <;> (left; decide))
    | (subst h; right; assumption)
    | (rcases h with ((rfl | rfl | rfl) | hx) | rfl
       <;> first
         | (left; decide)
         | (left; exact isHexDigitCode_graphic (natHex_mem hx)))

theorem escapeChar_mem {p : Nat → Bool} {c x : Nat} (h : x ∈ escapeChar p c) :
    isAsciiGraphic x = true ∨ p x = true := by
  simp only [escapeChar] at h
  split at h
  · simp only [List.mem_cons, List.not_mem_nil, or_false] at h
    rcases h with rfl | rfl <;> (left; decide)
  · split at h
    · exact escapeDebug_mem h
    · simp only [List.mem_singleton] at h
      subst h
      left
      rename_i hg
      simpa using hg

theorem escapeByte_mem {b x : Nat} (hb : b < 256) (h : x ∈ escapeByte b) :
    isAsciiGraphic x = true := by
  simp only [escapeByte, List.mem_cons, List.not_mem_nil, or_false] at h
  rcases h with rfl | rfl | rfl | rfl
  · decide
  · decide
  · exact isHexDigitCode_graphic (hexDigit_isHex (by omega))
  · exact isHexDigitCode_graphic (hexDigit_isHex (Nat.mod_lt _ (by omega)))

/-- The verbatim-character predicate of the amended Safe-Token shape:
ASCII-graphic, or printable per the abstracted Unicode predicate. -/
def verbatimOk (p : Nat → Bool) (c : Nat) : Bool :=
  isAsciiGraphic c || p c

/-!
## Scanner closure of the escape units -/

theorem scan_verbatim {ok : Nat → Bool} {c : Nat} (h1 : ok c = true) (h2 : c ≠ 0x5c) :
    scanStep ok (some ScanSt.plain) c = some ScanSt.plain := by
  simp [scanStep, h1, h2]

theorem scan_uhex_tail {ok : Nat → Bool} {ds : List Nat}
    (h : ∀ d ∈ ds, isHexDigitCode d = true) :
    List.foldl (scanStep ok) (some (ScanSt.uhex true)) (ds ++ [0x7d]) =
      some ScanSt.plain := by
  induction ds with
  | nil => simp [scanStep, isHexDigitCode]
  | cons d ds ih =>
    have hd : isHexDigitCode d = true := h d (List.mem_cons_self d ds)
    simp only [List.cons_append, List.foldl_cons]
    rw [show scanStep ok (some (ScanSt.uhex true)) d = some (ScanSt.uhex true) by
      simp [scanStep, hd]]
    exact ih (fun e he => h e (List.mem_cons_of_mem d he))

theorem scan_escapeDebug {p : Nat → Bool} {c : Nat} (hng : isAsciiGraphic c = false) :
    List.foldl (scanStep (verbatimOk p)) (some ScanSt.plain) (escapeDebug p c) =
      some ScanSt.plain := by
  simp only [escapeDebug]
  repeat' split
  · simp [scanStep]
  · simp [scanStep]
  · simp [scanStep]
  · simp [scanStep]
  · rename_i h
    exact absurd hng (by subst h; decide)
  · rename_i h
    exact absurd hng (by subst h; decide)
  · rename_i h
    exact absurd hng (by subst h; decide)
  · rename_i hp
    have hc : c ≠ 0x5c := by
      rintro rfl
      exact absurd hng (by decide)
    simp [scanStep, hc, verbatimOk, hp]
  · rcases List.exists_cons_of_ne_nil (natHex_ne_nil c) with ⟨d, ds, hds⟩
    have h1 : List.foldl (scanStep (verbatimOk p)) (some ScanSt.plain)
        [0x5c, 0x75, 0x7b] = some (ScanSt.uhex false) := by
      simp [scanStep]
    rw [List.append_assoc, List.foldl_append, h1, hds]
    simp only [List.cons_append, List.foldl_cons]
    rw [show scanStep (verbatimOk p) (some (ScanSt.uhex false)) d =
        some (ScanSt.uhex true) by
      simp [scanStep, natHex_mem (hds ▸ List.mem_cons_self d ds)]]
    exact scan_uhex_tail (fun e he => natHex_mem (hds ▸ List.mem_cons_of_mem d he))

theorem scan_escapeChar {p : Nat → Bool} {c : Nat} :
    List.foldl (scanStep (verbatimOk p)) (some ScanSt.plain) (escapeChar p c) =
      some ScanSt.plain := by
  simp only [escapeChar]
  split
  · simp [scanStep]
  · rename_i hc
    split
    · rename_i hng
      exact scan_escapeDebug (by simpa using hng)
    · rename_i hg
      have hgr : isAsciiGraphic c = true := by simpa using hg
      simp [scanStep, hc, verbatimOk, hgr]

theorem scan_escapeByte {ok : Nat → Bool} {b : Nat} (hb : b < 256) :
    List.foldl (scanStep ok) (some ScanSt.plain) (escapeByte b) =
      some ScanSt.plain := by
  have h1 : isHexDigitCode (hexDigit (b / 16)) = true := hexDigit_isHex (by omega)
  have h2 : isHexDigitCode (hexDigit (b % 16)) = true :=
    hexDigit_isHex (Nat.mod_lt _ (by omega))
  simp [escapeByte, scanStep, h1, h2]

theorem scan_flatMap_chars {p : Nat → Bool} (cs : List Nat) :
    List.foldl (scanStep (verbatimOk p)) (some ScanSt.plain)
      (cs.flatMap (escapeChar p)) = some ScanSt.plain := by
  induction cs with
  | nil => rfl
  | cons c cs ih =>
    rw [List.flatMap_cons, List.foldl_append, scan_escapeChar]
    exact ih

theorem scan_flatMap_bytes {ok : Nat → Bool} {bs : List Nat}
    (hb : ∀ b ∈ bs, b < 256) :
    List.foldl (scanStep ok) (some ScanSt.plain) (bs.flatMap escapeByte) =
      some ScanSt.plain := by
  induction bs with
  | nil => rfl
  | cons b bs ih =>
    rw [List.flatMap_cons, List.foldl_append,
      scan_escapeByte (hb b (List.mem_cons_self b bs))]
    exact ih (fun e he => hb e (List.mem_cons_of_mem b he))

theorem flatMap_chars_mem {p : Nat → Bool} {cs : List Nat} {x : Nat}
    (h : x ∈ cs.flatMap (escapeChar p)) :
    isAsciiGraphic x = true ∨ p x = true := by
  rcases List.mem_flatMap.1 h with ⟨c, _, hx⟩
  exact escapeChar_mem hx

theorem flatMap_bytes_mem {bs : List Nat} {x : Nat} (hb : ∀ b ∈ bs, b < 256)
    (h : x ∈ bs.flatMap escapeByte) : isAsciiGraphic x = true := by
  rcases List.mem_flatMap.1 h with ⟨b, hbm, hx⟩
  exact escapeByte_mem (hb b hbm) hx

/-- The loop body output always satisfies the escaping grammar and
contains only ASCII-graphic or `p`-printable characters. -/
theorem escapeRestF_good {p : Nat → Bool} :
    ∀ (fuel : Nat) (bytes out : List Nat), (∀ b ∈ bytes, b < 256) →
      escapeRestF p fuel bytes = some out →
      List.foldl (scanStep (verbatimOk p)) (some ScanSt.plain) out =
          some ScanSt.plain ∧
        ∀ x ∈ out, isAsciiGraphic x = true ∨ p x = true := by
  intro fuel
  induction fuel with
  | zero =>
    intro bytes out hb h
    simp only [escapeRestF] at h
    split at h
    · cases h
      exact ⟨rfl, by simp⟩
    · cases h
  | succ fuel ih =>
    intro bytes out hb h
    match bytes, hb, h with
    | [], hb, h =>
      cases h
      exact ⟨rfl, by simp⟩
    | b :: bs, hb, h =>
      simp only [escapeRestF] at h
      split at h
      · rename_i cs hdec
        cases h
        exact ⟨scan_flatMap_chars cs, fun x hx => flatMap_chars_mem hx⟩
      · rename_i vut el hdec
        split at h
        · split at h
          · rename_i l
            split at h
            · cases h
            · rename_i hlen
              split at h
              · rename_i out2 hrec
                cases h
                have hdropb : ∀ e ∈ (b :: bs).drop (l + 1), e < 256 :=
                  fun e he => hb e (List.drop_subset _ _ he)
                have htakeb : ∀ e ∈ (b :: bs).take (l + 1), e < 256 :=
                  fun e he => hb e (List.take_subset _ _ he)
                rcases ih _ _ hdropb hrec with ⟨hs2, hm2⟩
                constructor
                · rw [List.foldl_append, scan_flatMap_bytes htakeb]
                  exact hs2
                · intro x hx
                  rcases List.mem_append.1 hx with hx | hx
                  · exact Or.inl (flatMap_bytes_mem htakeb hx)
                  · exact hm2 x hx
              · cases h
          · cases h
            exact ⟨scan_flatMap_bytes hb, fun x hx => Or.inl (flatMap_bytes_mem hb hx)⟩
        · split at h
          · rename_i out2 hrec
            cases h
            have hdropb : ∀ e ∈ (b :: bs).drop vut, e < 256 :=
              fun e he => hb e (List.drop_subset _ _ he)
            rcases ih _ _ hdropb hrec with ⟨hs2, hm2⟩
            constructor
            · rw [List.foldl_append, scan_flatMap_chars]
              exact hs2
            · intro x hx
              rcases List.mem_append.1 hx with hx | hx
              · exact flatMap_chars_mem hx
              · exact hm2 x hx
          · cases h

/-- The fuel driving `escapeRestF` is irrelevant once it covers the
input length. -/
theorem escapeRestF_irrel {p : Nat → Bool} :
    ∀ (f1 : Nat) (bytes : List Nat) (f2 : Nat), bytes.length ≤ f1 →
      bytes.length ≤ f2 → escapeRestF p f1 bytes = escapeRestF p f2 bytes := by
  intro f1
  induction f1 with
  | zero =>
    intro bytes f2 h1 h2
    have hnil : bytes = [] := List.length_eq_zero.1 (Nat.le_zero.1 h1)
    subst hnil
    cases f2 <;> rfl
  | succ f1 ih =>
    intro bytes f2 h1 h2
    match bytes, h1, h2 with
    | [], h1, h2 => cases f2 <;> rfl
    | b :: bs, h1, h2 =>
      match f2, h2 with
      | f2 + 1, h2 =>
        simp only [escapeRestF]
        split
        · rfl
        · rename_i vut el heq
          split
          · split
            · rename_i l
              have hd : ((b :: bs).drop (l + 1)).length ≤ f1 := by
                simp only [List.length_drop, List.length_cons]
                simp only [List.length_cons] at h1
                omega
              have hd2 : ((b :: bs).drop (l + 1)).length ≤ f2 := by
                simp only [List.length_drop, List.length_cons]
                simp only [List.length_cons] at h2
                omega
              rw [ih _ f2 hd hd2]
            · rfl
          · rename_i hv
            have hvp : 1 ≤ vut := Nat.one_le_iff_ne_zero.2 hv
            have hd : ((b :: bs).drop vut).length ≤ f1 := by
              simp only [List.length_drop, List.length_cons]
              simp only [List.length_cons] at h1
              omega
            have hd2 : ((b :: bs).drop vut).length ≤ f2 := by
              simp only [List.length_drop, List.length_cons]
              simp only [List.length_cons] at h2
              omega
            rw [ih _ f2 hd hd2]

theorem escapeRestF_eq_escapeRest {p : Nat → Bool} {fuel : Nat} {bytes : List Nat}
    (h : bytes.length ≤ fuel) : escapeRestF p fuel bytes = escapeRest p bytes :=
  escapeRestF_irrel fuel bytes bytes.length h (Nat.le_refl _)

/-- One step of the loop at an invalid run that consumes to the end of
the input. -/
theorem escapeRest_err_none {p : Nat → Bool} {bytes : List Nat}
    (h : utf8Decode bytes = .error (0, none)) :
    escapeRest p bytes = some (bytes.flatMap escapeByte) := by
  match bytes with
  | [] => simp [utf8Decode] at h
  | b :: bs =>
    show escapeRestF p (b :: bs).length (b :: bs) = _
    simp only [List.length_cons, escapeRestF, h]
    simp

/-- One step of the loop at an invalid run whose reported extent fits
in the remaining input. -/
theorem escapeRest_err_some {p : Nat → Bool} {l : Nat} {bytes : List Nat}
    (h : utf8Decode bytes = .error (0, some l)) (hlen : l + 1 ≤ bytes.length) :
    escapeRest p bytes =
      (escapeRest p (bytes.drop (l + 1))).map
        (fun out => (bytes.take (l + 1)).flatMap escapeByte ++ out) := by
  match bytes with
  | [] => simp [utf8Decode] at h
  | b :: bs =>
    show escapeRestF p (b :: bs).length (b :: bs) = _
    simp only [List.length_cons, escapeRestF, h]
    have hnl : ¬((b :: bs).length < l + 1) := by
      simp only [List.length_cons]
      simp only [List.length_cons] at hlen
      omega
    simp only [List.length_cons] at hnl
    simp only [if_pos rfl, if_neg hnl]
    rw [escapeRestF_eq_escapeRest (p := p)
      (show ((b :: bs).drop (l + 1)).length ≤ bs.length by
        simp only [List.length_drop, List.length_cons]
        omega)]
    cases escapeRest p ((b :: bs).drop (l + 1)) <;> rfl

/-- One step of the loop at an invalid run whose reported extent
exceeds the remaining input: the source panics. -/
theorem escapeRest_err_some_panic {p : Nat → Bool} {l : Nat} {bytes : List Nat}
    (h : utf8Decode bytes = .error (0, some l)) (hlen : bytes.length < l + 1) :
    escapeRest p bytes = none := by
  match bytes with
  | [] => simp [utf8Decode] at h
  | b :: bs =>
    show escapeRestF p (b :: bs).length (b :: bs) = _
    simp only [List.length_cons, escapeRestF, h]
    simp only [List.length_cons] at hlen
    simp [hlen]

/-- A decoding made only of ASCII scalars is the byte sequence itself:
every multi-byte UTF-8 sequence decodes to a scalar of at least 0x80. -/
theorem utf8Decode_ascii :
    ∀ {bytes cs : List Nat}, utf8Decode bytes = .ok cs →
      (∀ c ∈ cs, c ≤ 0x7f) → cs = bytes := by
  intro bytes
  induction bytes with
  | nil =>
    intro cs h hc
    cases h
    rfl
  | cons b bs ih =>
    intro cs h hc
    rw [utf8Decode_cons] at h
    split at h
    · simp only [okCons] at h
      split at h
      · rename_i cs2 hdec
        cases h
        exact congrArg (b :: ·)
          (ih hdec (fun c hcm => hc c (List.mem_cons_of_mem b hcm)))
      · cases h
    · rename_i hb
      split at h
      · rename_i hw
        split at h
        · cases h
        · rename_i b2 bs2
          split at h
          · rename_i hcont
            simp only [okCons] at h
            split at h
            · rename_i cs2 hdec
              cases h
              have hh := hc _ (List.mem_cons_self _ _)
              simp only [Bool.and_eq_true, decide_eq_true_eq] at hw
              omega
            · cases h
          · cases h
      · split at h
        · rename_i hw
          split at h
          · cases h
          · rename_i b2 bs2
            split at h
            · rename_i hp
              split at h
              · cases h
              · rename_i b3 bs3
                split at h
                · rename_i hcont3
                  simp only [okCons] at h
                  split at h
                  · rename_i cs2 hdec
                    cases h
                    have hh := hc _ (List.mem_cons_self _ _)
                    simp only [Bool.and_eq_true, decide_eq_true_eq] at hw
                    simp only [valid3Pair, isCont, Bool.or_eq_true, Bool.and_eq_true,
                      beq_iff_eq, decide_eq_true_eq] at hp
                    omega
                  · cases h
                · cases h
            · cases h
        · split at h
          · rename_i hw
            split at h
            · cases h
            · rename_i b2 bs2
              split at h
              · rename_i hp
                split at h
                · cases h
                · rename_i b3 bs3
                  split at h
                  · rename_i hcont3
                    split at h
                    · cases h
                    · rename_i b4 bs4
                      split at h
                      · rename_i hcont4
                        simp only [okCons] at h
                        split at h
                        · rename_i cs2 hdec
                          cases h
                          have hh := hc _ (List.mem_cons_self _ _)
                          simp only [Bool.and_eq_true, decide_eq_true_eq] at hw
                          simp only [valid4Pair, isCont, Bool.or_eq_true,
                            Bool.and_eq_true, beq_iff_eq, decide_eq_true_eq] at hp
                          omega
                        · cases h
                      · cases h
                  · cases h
              · cases h
          · cases h

theorem scan_verbatim_list {ok : Nat → Bool} {t : List Nat}
    (h : ∀ x ∈ t, ok x = true ∧ x ≠ 0x5c) :
    List.foldl (scanStep ok) (some ScanSt.plain) t = some ScanSt.plain := by
  induction t with
  | nil => rfl
  | cons a t ih =>
    rcases h a (List.mem_cons_self a t) with ⟨h1, h2⟩
    simp only [List.foldl_cons, scan_verbatim h1 h2]
    exact ih (fun x hx => h x (List.mem_cons_of_mem a hx))

theorem scan_wrap {ok : Nat → Bool} {body : List Nat} (hok : ok 0x22 = true)
    (h : List.foldl (scanStep ok) (some ScanSt.plain) body = some ScanSt.plain) :
    List.foldl (scanStep ok) (some ScanSt.plain) (0x22 :: body ++ [0x22]) =
      some ScanSt.plain := by
  have h34 : scanStep ok (some ScanSt.plain) 0x22 = some ScanSt.plain :=
    scan_verbatim hok (by decide)
  simp only [List.cons_append, List.foldl_cons, h34, List.foldl_append, h,
    List.foldl_nil]

theorem verbatimOk_quote {p : Nat → Bool} : verbatimOk p 0x22 = true := by
  simp [verbatimOk, isAsciiGraphic]

/-- Master theorem about every token the encoder produces: the empty
rule, the verbatim fast path, quote wrapping, the character range, and
the escaping grammar. -/
theorem escapedRender_props {p : Nat → Bool} {bytes t : List Nat}
    (hb : ∀ b ∈ bytes, b < 256) (h : escapedRender p bytes = some t) :
    (bytes = [] → t = [0x22, 0x22]) ∧
    (∀ cs, bytes ≠ [] → utf8Decode bytes = .ok cs →
      cs.all (fun c => isAsciiGraphic c && c != 0x5c) = true → t = bytes) ∧
    ((bytes ≠ [] ∧ ∀ cs, utf8Decode bytes = .ok cs →
        cs.all (fun c => isAsciiGraphic c && c != 0x5c) = false) →
      ∃ u, t = 0x22 :: u ++ [0x22]) ∧
    (∀ x ∈ t, isAsciiGraphic x = true ∨ p x = true) ∧
    scanTok (verbatimOk p) t = true := by
  by_cases hemp : bytes = []
  · subst hemp
    simp only [escapedRender, List.isEmpty_nil, if_true, Option.some.injEq] at h
    subst h
    refine ⟨fun _ => rfl, ?_, ?_, ?_, ?_⟩
    · intro cs hne
      exact absurd rfl hne
    · rintro ⟨hne, _⟩
      exact absurd rfl hne
    · intro x hx
      simp only [List.mem_cons, List.not_mem_nil, or_false] at hx
      rcases hx with rfl | rfl <;> (left; decide)
    · simp only [scanTok, decide_eq_true_eq]
      refine scan_verbatim_list ?_
      intro x hx
      simp only [List.mem_cons, List.not_mem_nil, or_false] at hx
      rcases hx with rfl | rfl <;>
        exact ⟨verbatimOk_quote, by decide⟩
  · have hie : bytes.isEmpty = false := by
      cases bytes with
      | nil => exact absurd rfl hemp
      | cons a l => rfl
    cases hdec : utf8Decode bytes with
    | ok cs =>
      simp only [escapedRender, hie, Bool.false_eq_true, if_false, hdec] at h
      split at h
      · rename_i hall
        obtain rfl := Option.some.inj h
        have hcs : cs = bytes := utf8Decode_ascii hdec (fun c hcm => by
          have hh := List.all_eq_true.1 hall c hcm
          simp only [Bool.and_eq_true, isAsciiGraphic, decide_eq_true_eq] at hh
          omega)
        refine ⟨fun he => absurd he hemp, ?_, ?_, ?_, ?_⟩
        · intro cs2 _ hdec2 _
          exact hcs
        · rintro ⟨_, hnf⟩
          exact absurd hall (by simp [hnf cs rfl])
        · intro x hx
          have hh := List.all_eq_true.1 hall x hx
          simp only [Bool.and_eq_true] at hh
          exact Or.inl hh.1
        · simp only [scanTok, decide_eq_true_eq]
          refine scan_verbatim_list ?_
          intro x hx
          have hh := List.all_eq_true.1 hall x hx
          simp only [Bool.and_eq_true, bne_iff_ne, ne_eq] at hh
          exact ⟨by simp [verbatimOk, hh.1], hh.2⟩
      · rename_i hall
        obtain rfl := Option.some.inj h
        have hallf : cs.all (fun c => isAsciiGraphic c && c != 0x5c) = false := by
          simpa using hall
        refine ⟨fun he => absurd he hemp, ?_, ?_, ?_, ?_⟩
        · intro cs2 _ hdec2 hall2
          cases hdec2
          exact absurd hall2 (by simp [hallf])
        · intro _
          exact ⟨cs.flatMap (escapeChar p), rfl⟩
        · intro x hx
          have hx2 : x = 0x22 ∨ x ∈ cs.flatMap (escapeChar p) := by
            rcases List.mem_cons.1 hx with h1 | h1
            · exact Or.inl h1
            · rcases List.mem_append.1 h1 with h2 | h2
              · exact Or.inr h2
              · exact Or.inl (List.mem_singleton.1 h2)
          rcases hx2 with rfl | hx2
          · left; decide
          · exact flatMap_chars_mem hx2
        · simp only [scanTok, decide_eq_true_eq]
          exact scan_wrap verbatimOk_quote (scan_flatMap_chars cs)
    | error e =>
      simp only [escapedRender, hie, Bool.false_eq_true, if_false, hdec] at h
      split at h
      · rename_i out hrest
        obtain rfl := Option.some.inj h
        have hgood := escapeRestF_good bytes.length bytes out hb
          (by simpa [escapeRest] using hrest)
        refine ⟨fun he => absurd he hemp, ?_, ?_, ?_, ?_⟩
        · intro cs2 _ hdec2 _
          cases hdec2
        · intro _
          exact ⟨out, rfl⟩
        · intro x hx
          have hx2 : x = 0x22 ∨ x ∈ out := by
            rcases List.mem_cons.1 hx with h1 | h1
            · exact Or.inl h1
            · rcases List.mem_append.1 h1 with h2 | h2
              · exact Or.inr h2
              · exact Or.inl (List.mem_singleton.1 h2)
          rcases hx2 with rfl | hx2
          · left; decide
          · exact hgood.2 x hx2
        · simp only [scanTok, decide_eq_true_eq]
          exact scan_wrap verbatimOk_quote hgood.1
      · cases h

/-!
## Claim theorems for the Safe-Token Encoder -/

/-- C1: the claim says rendering an Escaped value never panics.  The
code violates it: on the one-byte input `0xff`, decoding fails with
`valid_up_to = 0` and `error_len = Some 1`, `Escaped::fmt` sets
`range.end = range.start + 1 + 1 = 2` and indexes `self.bytes[0..2]`
on a slice of length 1, which panics with an out-of-bounds index.  In
the model the panic is the `none` result. -/
theorem c1_encoder_panics_on_ff (p : Nat → Bool) :
    escapedRender p [0xff] = none := rfl

/-- C4 (amended): every token the encoder produces satisfies the Safe
Token shape with the verbatim-character class widened from
ASCII-graphic to ASCII-graphic-or-printable: empty input gives the
two-quote token; nonempty all-graphic backslash-free valid text is
emitted verbatim; every other rendered input is quote-wrapped; every
character of a token is ASCII-graphic or printable; and the token
satisfies the escaping grammar (no unescaped backslash, every verbatim
character ASCII-graphic or printable). -/
theorem c4_safe_token_shape (p : Nat → Bool) (bytes t : List Nat)
    (hb : ∀ b ∈ bytes, b < 256) (h : escapedRender p bytes = some t) :
    (bytes = [] → t = [0x22, 0x22]) ∧
    (∀ cs, bytes ≠ [] → utf8Decode bytes = .ok cs →
      cs.all (fun c => isAsciiGraphic c && c != 0x5c) = true → t = bytes) ∧
    ((bytes ≠ [] ∧ ∀ cs, utf8Decode bytes = .ok cs →
        cs.all (fun c => isAsciiGraphic c && c != 0x5c) = false) →
      ∃ u, t = 0x22 :: u ++ [0x22]) ∧
    (∀ x ∈ t, isAsciiGraphic x = true ∨ p x = true) ∧
    scanTok (verbatimOk p) t = true :=
  escapedRender_props hb h

/-- Witness for C4 at the input "hello world". -/
theorem c4_safe_token_shape_witness :
    (∀ b ∈ codes "hello world", b < 256) ∧
    escapedRender printableAscii (codes "hello world") =
      some (codes "\"hello world\"") ∧
    scanTok (verbatimOk printableAscii) (codes "\"hello world\"") = true :=
  ⟨by decide, by decide,
    (c4_safe_token_shape printableAscii (codes "hello world")
      (codes "\"hello world\"") (by decide) (by decide)).2.2.2.2⟩

/-- C4 counterexample: the claim as stated requires that no token
contain an unescaped non-ASCII-graphic character; the token for
"hello world" contains the space (0x20), unescaped and not
ASCII-graphic, so the token fails the escaping grammar whose verbatim
class is exactly ASCII-graphic. -/
theorem c4_cex_unescaped_space :
    escapedRender printableAscii (codes "hello world") =
      some (codes "\"hello world\"") ∧
    scanTok isAsciiGraphic (codes "\"hello world\"") = false := by
  constructor
  · decide
  · decide

/-- C5: at an invalid-byte run (decode error at the cursor with no
valid prefix), a recoverable length `n` makes the encoder emit the
offending byte plus `n` further bytes, each as lowercase two-digit
`\xHH`, resuming after them (provided they fit in the remaining
input — otherwise the code panics, see C1); an error consuming to the
end of input makes it emit every remaining byte as `\xHH`; and the
bytes of `bad utf8 0xC3 0x28 !` encode to the claimed token. -/
theorem c5_invalid_run (p : Nat → Bool) (bytes : List Nat) :
    (∀ n, utf8Decode bytes = .error (0, some n) → n + 1 ≤ bytes.length →
      escapeRest p bytes =
        (escapeRest p (bytes.drop (n + 1))).map
          (fun out => (bytes.take (n + 1)).flatMap escapeByte ++ out)) ∧
    (utf8Decode bytes = .error (0, none) →
      escapeRest p bytes = some (bytes.flatMap escapeByte)) ∧
    escapedRender printableAscii
        (codes "bad utf8 " ++ [0xc3, 0x28] ++ codes "!") =
      some (codes "\"bad utf8 \\xc3\\x28!\"") :=
  ⟨fun _ h hl => escapeRest_err_some h hl, fun h => escapeRest_err_none h,
    by decide⟩

/-- Witness for C5 at the inputs 0xC3 0x28 0x21 (recoverable length 1)
and 0xC3 (error consuming to end of input). -/
theorem c5_invalid_run_witness :
    escapeRest printableAscii [0xc3, 0x28, 0x21] =
      (escapeRest printableAscii ([0xc3, 0x28, 0x21].drop (1 + 1))).map
        (fun out => ([0xc3, 0x28, 0x21].take (1 + 1)).flatMap escapeByte ++ out) ∧
    escapeRest printableAscii [0xc3] = some ([0xc3].flatMap escapeByte) :=
  ⟨(c5_invalid_run printableAscii [0xc3, 0x28, 0x21]).1 1 rfl (by decide),
    (c5_invalid_run printableAscii [0xc3]).2.1 rfl⟩

/-- C6 counterexample: the encoder is not injective — the empty input
and the two-character input consisting of two double quotes both
produce the two-quote token. -/
theorem c6_cex_not_injective :
    escapedRender printableAscii [] = escapedRender printableAscii [0x22, 0x22] ∧
    ([] : List Nat) ≠ [0x22, 0x22] := by
  constructor
  · decide
  · decide

/-- C6 (amended): the rendering is not injective in general (empty
input and the literal two-quote input share a token), but it is
injective on inputs that render verbatim through the fast path, where
the token equals the input. -/
theorem c6_fast_path_injective (p : Nat → Bool)
    (b1 b2 t1 t2 cs1 cs2 : List Nat)
    (h1ne : b1 ≠ []) (h2ne : b2 ≠ [])
    (hd1 : utf8Decode b1 = .ok cs1)
    (ha1 : cs1.all (fun c => isAsciiGraphic c && c != 0x5c) = true)
    (hd2 : utf8Decode b2 = .ok cs2)
    (ha2 : cs2.all (fun c => isAsciiGraphic c && c != 0x5c) = true)
    (he1 : escapedRender p b1 = some t1) (he2 : escapedRender p b2 = some t2)
    (heq : t1 = t2) : b1 = b2 := by
  have hcs1 : cs1 = b1 := utf8Decode_ascii hd1 (fun c hcm => by
    have hh := List.all_eq_true.1 ha1 c hcm
    simp only [Bool.and_eq_true, isAsciiGraphic, decide_eq_true_eq] at hh
    omega)
  have hcs2 : cs2 = b2 := utf8Decode_ascii hd2 (fun c hcm => by
    have hh := List.all_eq_true.1 ha2 c hcm
    simp only [Bool.and_eq_true, isAsciiGraphic, decide_eq_true_eq] at hh
    omega)
  have hb1 : ∀ b ∈ b1, b < 256 := by
    intro b hbm
    rw [← hcs1] at hbm
    have hh := List.all_eq_true.1 ha1 b hbm
    simp only [Bool.and_eq_true, isAsciiGraphic, decide_eq_true_eq] at hh
    omega
  have hb2 : ∀ b ∈ b2, b < 256 := by
    intro b hbm
    rw [← hcs2] at hbm
    have hh := List.all_eq_true.1 ha2 b hbm
    simp only [Bool.and_eq_true, isAsciiGraphic, decide_eq_true_eq] at hh
    omega
  have ht1 : t1 = b1 := (escapedRender_props hb1 he1).2.1 cs1 h1ne hd1 ha1
  have ht2 : t2 = b2 := (escapedRender_props hb2 he2).2.1 cs2 h2ne hd2 ha2
  rw [← ht1, ← ht2, heq]

/-- Witness for C6 at the input "ab". -/
theorem c6_fast_path_injective_witness :
    utf8Decode (codes "ab") = .ok (codes "ab") ∧
    escapedRender printableAscii (codes "ab") = some (codes "ab") ∧
    codes "ab" = codes "ab" :=
  ⟨rfl, by decide,
    c6_fast_path_injective printableAscii (codes "ab") (codes "ab")
      (codes "ab") (codes "ab") (codes "ab") (codes "ab")
      (by decide) (by decide) rfl (by decide) rfl (by decide)
      (by decide) (by decide) rfl⟩

/-!
## Claim theorems for the record lifecycle -/

/-- Formatting does not read the logged flag. -/
theorem recordRender_markLogged {A : Type} (p : Nat → Bool)
    (v6R : List Nat → List Nat) (actionR : A → List Nat) (eR : List Nat)
    (r : LogRequest A) :
    recordRender p v6R actionR eR { r with logged := true } =
      recordRender p v6R actionR eR r := rfl

/-- C2: a record written exactly once with a sink appends exactly the
one formatted line to that sink's buffer and returns success when the
sink write succeeds; when the sink write fails, nothing is appended and
the I/O error is returned; and in both cases the drop at scope end is a
no-op against any sink. -/
theorem c2_write_exactly_once {A : Type} (p : Nat → Bool)
    (v6R : List Nat → List Nat) (actionR : A → List Nat) (eR : List Nat)
    (r : LogRequest A) (s : Sink) (t : List Nat)
    (h : recordRender p v6R actionR eR r = some t) :
    ((writeLog p v6R actionR eR r s).2 =
      some (if s.fail then (s, Except.error ())
            else ({ buf := s.buf ++ [t], fail := s.fail }, Except.ok ()))) ∧
    (∀ s2, dropLog p v6R actionR eR (writeLog p v6R actionR eR r s).1 s2 =
      some s2) := by
  constructor
  · show internalWrite p v6R actionR eR { r with logged := true } s = _
    rw [internalWrite, recordRender_markLogged, h]
    rw [Option.map_some']
    rw [show sinkWrite s t = if s.fail then (s, Except.error ())
        else ({ buf := s.buf ++ [t], fail := s.fail }, Except.ok ()) from rfl]
  · intro s2
    show dropLog p v6R actionR eR { r with logged := true } s2 = some s2
    rw [dropLog]
    simp

/-- A concrete record used by witnesses: constructed from a request
with no optional headers, method GET, uri /, version HTTP/1.1. -/
def sampleRecord : LogRequest (List Nat) :=
  { startTime := 0, logged := false, user := none, remote := none,
    fwd := none, host := none, method := codes "GET", uri := codes "/",
    version := codes "HTTP/1.1", userAgent := none, referer := none,
    action := none, status := none }

/-- A fresh working sink. -/
def sinkNew : Sink := { buf := [], fail := false }

/-- The line sampleRecord formats to. -/
def sampleLine : List Nat :=
  codes "request: [???] <unknown-remote> \"\" GET / HTTP/1.1 \"\" \"\" 1ms\n"

/-- Witness for C2 at sampleRecord against a fresh working sink. -/
theorem c2_write_exactly_once_witness :
    recordRender printableAscii (fun _ => []) (fun s => s) (codes "1ms")
        sampleRecord = some sampleLine ∧
    (writeLog printableAscii (fun _ => []) (fun s => s) (codes "1ms")
        sampleRecord sinkNew).2 =
      some ({ buf := [sampleLine], fail := false }, Except.ok ()) ∧
    dropLog printableAscii (fun _ => []) (fun s => s) (codes "1ms")
      (writeLog printableAscii (fun _ => []) (fun s => s) (codes "1ms")
        sampleRecord sinkNew).1 sinkNew = some sinkNew := by
  have h : recordRender printableAscii (fun _ => []) (fun s => s) (codes "1ms")
      sampleRecord = some sampleLine := by decide
  have h2 := c2_write_exactly_once printableAscii (fun _ => []) (fun s => s)
    (codes "1ms") sampleRecord sinkNew sampleLine h
  refine ⟨h, ?_, h2.2 sinkNew⟩
  have h3 := h2.1
  simpa [sinkNew] using h3

/-- Destructuring of a successful record formatting into its five
encoder calls and the line layout. -/
theorem recordRender_eq_some {A : Type} {p : Nat → Bool}
    {v6R : List Nat → List Nat} {actionR : A → List Nat} {eR : List Nat}
    {r : LogRequest A} {t : List Nat}
    (h : recordRender p v6R actionR eR r = some t) :
    ∃ userSeg fwdSeg hostTok uaTok refTok,
      (match r.user with
        | some u => (escapedRender p u).map (fun tk => tk ++ [0x20])
        | none => some []) = some userSeg ∧
      (match r.fwd with
        | some fw => (escapedRender p (stripMappedMarker fw)).map
            (fun tk => [0x2f] ++ tk)
        | none => some []) = some fwdSeg ∧
      escapedRender p (r.host.getD []) = some hostTok ∧
      escapedRender p (r.userAgent.getD []) = some uaTok ∧
      escapedRender p (r.referer.getD []) = some refTok ∧
      t = codes "request: [" ++
        (match r.action with
         | some a => actionR a ++ [0x3a]
         | none => []) ++
        (match r.status with
         | some s => natDecimal s
         | none => codes "???") ++
        codes "] " ++ userSeg ++ remoteRender v6R r.remote ++ fwdSeg ++
        [0x20] ++ hostTok ++ [0x20] ++ r.method ++ [0x20] ++ r.uri ++
        [0x20] ++ r.version ++ [0x20] ++ uaTok ++ [0x20] ++ refTok ++
        [0x20] ++ eR ++ [0x0a] := by
  rw [recordRender] at h
  cases h1 : (match r.user with
    | some u => (escapedRender p u).map (fun tk => tk ++ [0x20])
    | none => some ([] : List Nat)) with
  | none =>
    rw [h1] at h
    simp only [Option.bind] at h
    cases h
  | some us =>
    rw [h1] at h
    simp only [Option.bind] at h
    cases h2 : (match r.fwd with
      | some fw => (escapedRender p (stripMappedMarker fw)).map
          (fun tk => [0x2f] ++ tk)
      | none => some ([] : List Nat)) with
    | none =>
      rw [h2] at h
      simp only [Option.bind] at h
      cases h
    | some fs =>
      rw [h2] at h
      simp only [Option.bind] at h
      cases h3 : escapedRender p (r.host.getD []) with
      | none =>
        rw [h3] at h
        simp only [Option.bind] at h
        cases h
      | some ht =>
        rw [h3] at h
        simp only [Option.bind] at h
        cases h4 : escapedRender p (r.userAgent.getD []) with
        | none =>
          rw [h4] at h
          simp only [Option.bind] at h
          cases h
        | some ut =>
          rw [h4] at h
          simp only [Option.bind] at h
          cases h5 : escapedRender p (r.referer.getD []) with
          | none =>
            rw [h5] at h
            simp only [Option.bind] at h
            cases h
          | some rt =>
            rw [h5] at h
            simp only [Option.bind, Option.some.injEq] at h
            exact ⟨us, fs, ht, ut, rt, rfl, rfl, rfl, rfl, rfl, h.symm⟩

/-- C3: a record neither written nor discarded emits exactly one line
to the default (stderr) sink when dropped; a failing sink write is
swallowed (the drop still returns, leaving the sink unchanged, and no
error propagates); and with unset action and status the line starts
with `request: [???] ` — the action segment and its trailing colon are
omitted entirely and the status renders as `???`. -/
theorem c3_drop_emits_default {A : Type} (p : Nat → Bool)
    (v6R : List Nat → List Nat) (actionR : A → List Nat) (eR : List Nat)
    (r : LogRequest A) (stderr : Sink) (t : List Nat)
    (hl : r.logged = false) (ha : r.action = none) (hs : r.status = none)
    (h : recordRender p v6R actionR eR r = some t) :
    dropLog p v6R actionR eR r stderr =
      some (if stderr.fail then stderr
            else { buf := stderr.buf ++ [t], fail := stderr.fail }) ∧
    ∃ u, t = codes "request: [???] " ++ u := by
  constructor
  · rw [dropLog, hl]
    simp only [Bool.false_eq_true, if_false, internalWrite, h, Option.map_some']
    rw [show sinkWrite stderr t = if stderr.fail then (stderr, Except.error ())
        else ({ buf := stderr.buf ++ [t], fail := stderr.fail }, Except.ok ())
      from rfl]
    cases hf : stderr.fail <;> simp [hf]
  · obtain ⟨us, fs, ht, ut, rt, h1, h2, h3, h4, h5, heq⟩ := recordRender_eq_some h
    rw [ha, hs] at heq
    refine ⟨us ++ remoteRender v6R r.remote ++ fs ++ [0x20] ++ ht ++ [0x20] ++
      r.method ++ [0x20] ++ r.uri ++ [0x20] ++ r.version ++ [0x20] ++ ut ++
      [0x20] ++ rt ++ [0x20] ++ eR ++ [0x0a], ?_⟩
    rw [heq]
    have e1 : codes "request: [" =
      [114, 101, 113, 117, 101, 115, 116, 58, 32, 91] := by decide
    have e2 : codes "???" = [63, 63, 63] := by decide
    have e3 : codes "] " = [93, 32] := by decide
    have e4 : codes "request: [???] " =
      [114, 101, 113, 117, 101, 115, 116, 58, 32, 91, 63, 63, 63, 93, 32] := by
      decide
    simp [e1, e2, e3, e4]

/-- Witness for C3 at sampleRecord against a fresh working stderr sink. -/
theorem c3_drop_emits_default_witness :
    dropLog printableAscii (fun _ => []) (fun s => s) (codes "1ms")
        sampleRecord sinkNew =
      some { buf := [sampleLine], fail := false } ∧
    ∃ u, sampleLine = codes "request: [???] " ++ u := by
  have h : recordRender printableAscii (fun _ => []) (fun s => s) (codes "1ms")
      sampleRecord = some sampleLine := by decide
  have h2 := c3_drop_emits_default printableAscii (fun _ => []) (fun s => s)
    (codes "1ms") sampleRecord sinkNew sampleLine rfl rfl rfl h
  refine ⟨?_, h2.2⟩
  have h3 := h2.1
  simpa [sinkNew] using h3

theorem nl_not_mem_append {l1 l2 : List Nat} (h1 : 0x0a ∉ l1) (h2 : 0x0a ∉ l2) :
    0x0a ∉ l1 ++ l2 := by
  intro hm
  rcases List.mem_append.1 hm with hm | hm
  · exact h1 hm
  · exact h2 hm

theorem natDecimal_no_newline {n : Nat} : 0x0a ∉ natDecimal n := by
  intro hm
  have := natDecimal_mem hm
  omega

/-- Encoder tokens contain no newline once printability is false on the
line feed (as it is in Rust). -/
theorem escapedRender_no_newline {p : Nat → Bool} {bytes t : List Nat}
    (hp : p 0x0a = false) (hb : ∀ b ∈ bytes, b < 256)
    (h : escapedRender p bytes = some t) : 0x0a ∉ t := by
  intro hmem
  rcases (escapedRender_props hb h).2.2.2.1 0x0a hmem with hg | hpp
  · exact absurd hg (by decide)
  · rw [hp] at hpp
    cases hpp

theorem dottedQuad_no_newline {a b c d : Nat} : 0x0a ∉ dottedQuad a b c d := by
  unfold dottedQuad
  repeat' apply nl_not_mem_append
  all_goals first
    | exact natDecimal_no_newline
    | decide

theorem remoteRender_no_newline {v6R : List Nat → List Nat}
    (hv6 : ∀ octs, 0x0a ∉ v6R octs) (ro : Option RemoteAddr) :
    0x0a ∉ remoteRender v6R ro := by
  cases ro with
  | none =>
    show (0x0a : Nat) ∉ codes "<unknown-remote>"
    decide
  | some ra =>
    cases ra with
    | v4 a b c d port =>
      show 0x0a ∉ dottedQuad a b c d ++ [0x3a] ++ natDecimal port
      repeat' apply nl_not_mem_append
      all_goals first
        | exact dottedQuad_no_newline
        | exact natDecimal_no_newline
        | decide
    | v6 octs port =>
      show 0x0a ∉ (match v4MappedOctets octs with
        | some (a, b, c, d) => dottedQuad a b c d
        | none => v6R octs) ++ [0x3a] ++ natDecimal port
      cases hmo : v4MappedOctets octs with
      | some q =>
        obtain ⟨a, b, c, d⟩ := q
        show 0x0a ∉ dottedQuad a b c d ++ [0x3a] ++ natDecimal port
        repeat' apply nl_not_mem_append
        all_goals first
          | exact dottedQuad_no_newline
          | exact natDecimal_no_newline
          | decide
      | none =>
        show 0x0a ∉ v6R octs ++ [0x3a] ++ natDecimal port
        repeat' apply nl_not_mem_append
        all_goals first
          | exact hv6 octs
          | exact natDecimal_no_newline
          | decide

theorem stripMappedMarker_subset {l : List Nat} :
    ∀ x ∈ stripMappedMarker l, x ∈ l := by
  unfold stripMappedMarker
  split
  · rename_i rest
    intro x hx
    simp only [List.mem_cons]
    tauto
  · intro x hx
    exact hx

/-- C7: the formatted text of every emission ends with exactly one
trailing newline and contains no other newline, given that the plain
renderings the record interpolates (action, method, uri, version,
elapsed, IPv6 text) are newline-free, as the corresponding hyper and
std renderings are. -/
theorem c7_single_line {A : Type} (p : Nat → Bool) (v6R : List Nat → List Nat)
    (actionR : A → List Nat) (eR : List Nat) (r : LogRequest A) (t : List Nat)
    (hp : ∀ c, c < 0x20 → p c = false)
    (hbU : ∀ b ∈ r.user.getD [], b < 256)
    (hbF : ∀ b ∈ r.fwd.getD [], b < 256)
    (hbH : ∀ b ∈ r.host.getD [], b < 256)
    (hbA : ∀ b ∈ r.userAgent.getD [], b < 256)
    (hbR : ∀ b ∈ r.referer.getD [], b < 256)
    (hact : ∀ a, r.action = some a → 0x0a ∉ actionR a)
    (hmeth : 0x0a ∉ r.method) (huri : 0x0a ∉ r.uri) (hver : 0x0a ∉ r.version)
    (helap : 0x0a ∉ eR) (hv6 : ∀ octs, 0x0a ∉ v6R octs)
    (h : recordRender p v6R actionR eR r = some t) :
    ∃ u, t = u ++ [0x0a] ∧ 0x0a ∉ u := by
  have hpn : p 0x0a = false := hp 0x0a (by omega)
  obtain ⟨us, fs, ht, ut, rt, h1, h2, h3, h4, h5, heq⟩ := recordRender_eq_some h
  have hus : 0x0a ∉ us := by
    cases hu : r.user with
    | none =>
      rw [hu] at h1
      cases h1
      simp
    | some u =>
      rw [hu] at h1
      obtain ⟨tok, htok, rfl⟩ := Option.map_eq_some'.1 h1
      refine nl_not_mem_append ?_ (by decide)
      exact escapedRender_no_newline hpn
        (by rw [hu] at hbU; simpa using hbU) htok
  have hfs : 0x0a ∉ fs := by
    cases hf : r.fwd with
    | none =>
      rw [hf] at h2
      cases h2
      simp
    | some fw =>
      rw [hf] at h2
      obtain ⟨tok, htok, rfl⟩ := Option.map_eq_some'.1 h2
      refine nl_not_mem_append (by decide) ?_
      refine escapedRender_no_newline hpn ?_ htok
      intro b hbm
      have hbfw : b ∈ fw := stripMappedMarker_subset b hbm
      rw [hf] at hbF
      exact hbF b (by simpa using hbfw)
  have hht : 0x0a ∉ ht := escapedRender_no_newline hpn hbH h3
  have hut : 0x0a ∉ ut := escapedRender_no_newline hpn hbA h4
  have hrt : 0x0a ∉ rt := escapedRender_no_newline hpn hbR h5
  refine ⟨codes "request: [" ++
    (match r.action with
     | some a => actionR a ++ [0x3a]
     | none => []) ++
    (match r.status with
     | some s => natDecimal s
     | none => codes "???") ++
    codes "] " ++ us ++ remoteRender v6R r.remote ++ fs ++
    [0x20] ++ ht ++ [0x20] ++ r.method ++ [0x20] ++ r.uri ++
    [0x20] ++ r.version ++ [0x20] ++ ut ++ [0x20] ++ rt ++
    [0x20] ++ eR, ?_, ?_⟩
  · rw [heq]
  · repeat' apply nl_not_mem_append
    all_goals first
      | exact hus
      | exact hfs
      | exact hht
      | exact hut
      | exact hrt
      | exact hmeth
      | exact huri
      | exact hver
      | exact helap
      | exact remoteRender_no_newline hv6 r.remote
      | decide
      | (cases hac : r.action with
         | none => simp
         | some a => exact nl_not_mem_append (hact a hac) (by decide))
      | (cases hst : r.status with
         | none =>
           show (0x0a : Nat) ∉ codes "???"
           decide
         | some s => exact natDecimal_no_newline)

/-- Witness for C7 at sampleRecord. -/
theorem c7_single_line_witness :
    ∃ u, sampleLine = u ++ [0x0a] ∧ 0x0a ∉ u :=
  c7_single_line printableAscii (fun _ => []) (fun s => s) (codes "1ms")
    sampleRecord sampleLine
    (by intro c hc; simp [printableAscii]; omega)
    (by decide) (by decide) (by decide) (by decide) (by decide)
    (fun a ha => by simp [sampleRecord] at ha)
    (by decide) (by decide) (by decide) (by decide)
    (fun octs => by simp)
    (by decide)

/-- C8: remote-address rendering — IPv4 renders as `a.b.c.d:port`; an
IPv6 address whose octets are ten zero bytes, `0xFF 0xFF`, then four
bytes renders those four bytes as `a.b.c.d:port`; every other IPv6
address renders as its native text followed by `:port`; an unset remote
renders as `<unknown-remote>`; and the IPv4-mapped equivalent of
`203.0.113.5:443` renders as `203.0.113.5:443`. -/
theorem c8_remote_rendering (v6R : List Nat → List Nat) :
    (∀ a b c d port, remoteRender v6R (some (.v4 a b c d port)) =
      dottedQuad a b c d ++ [0x3a] ++ natDecimal port) ∧
    (∀ octs port a b c d, v4MappedOctets octs = some (a, b, c, d) →
      remoteRender v6R (some (.v6 octs port)) =
        dottedQuad a b c d ++ [0x3a] ++ natDecimal port) ∧
    (∀ octs port, v4MappedOctets octs = none →
      remoteRender v6R (some (.v6 octs port)) =
        v6R octs ++ [0x3a] ++ natDecimal port) ∧
    remoteRender v6R none = codes "<unknown-remote>" ∧
    (∀ a b c d, v4MappedOctets
      [0, 0, 0, 0, 0, 0, 0, 0, 0, 0, 0xff, 0xff, a, b, c, d] =
        some (a, b, c, d)) ∧
    remoteRender v6R
        (some (.v6 [0, 0, 0, 0, 0, 0, 0, 0, 0, 0, 0xff, 0xff, 203, 0, 113, 5]
          443)) =
      codes "203.0.113.5:443" := by
  refine ⟨fun a b c d port => rfl, ?_, ?_, rfl, fun a b c d => rfl, ?_⟩
  · intro octs port a b c d hm
    show (match v4MappedOctets octs with
      | some (a, b, c, d) => dottedQuad a b c d
      | none => v6R octs) ++ [0x3a] ++ natDecimal port = _
    rw [hm]
  · intro octs port hm
    show (match v4MappedOctets octs with
      | some (a, b, c, d) => dottedQuad a b c d
      | none => v6R octs) ++ [0x3a] ++ natDecimal port = _
    rw [hm]
  · rfl

/-- Witness for C8's hypothesis-bearing clauses: the mapped octets of
203.0.113.5 and a non-mapped single-octet list. -/
theorem c8_remote_rendering_witness :
    remoteRender (fun _ => [])
        (some (.v6 [0, 0, 0, 0, 0, 0, 0, 0, 0, 0, 0xff, 0xff, 203, 0, 113, 5]
          443)) =
      dottedQuad 203 0 113 5 ++ [0x3a] ++ natDecimal 443 ∧
    remoteRender (fun _ => []) (some (.v6 [1] 443)) =
      (fun _ => ([] : List Nat)) [1] ++ [0x3a] ++ natDecimal 443 :=
  ⟨(c8_remote_rendering (fun _ => [])).2.1
      [0, 0, 0, 0, 0, 0, 0, 0, 0, 0, 0xff, 0xff, 203, 0, 113, 5] 443
      203 0 113 5 rfl,
    (c8_remote_rendering (fun _ => [])).2.2.1 [1] 443 rfl⟩

/-- sampleRecord with a string action "x" (the action type standing
for Rust String, whose Display is verbatim and whose Debug
quote-wraps). -/
def sampleActionRecord : LogRequest (List Nat) :=
  { sampleRecord with action := some (codes "x") }

/-- C9 counterexample: for a record whose action is the string "x",
the line the code emits (action rendered through std Display, i.e.
verbatim) differs from the line prescribed by the claim (action
rendered through the LogDisplay capability, whose default for a type
with no override is the Debug rendering, quote-wrapped for a string).
So the Record does not render the action through the capability. -/
theorem c9_cex_display_not_capability :
    recordRender printableAscii (fun _ => []) (fun s => s) (codes "1ms")
        sampleActionRecord ≠
      recordRenderViaCapability printableAscii (fun _ => [])
        (defaultLogDisplay stringDebugQuote) (codes "1ms")
        sampleActionRecord := by
  decide

/-- C9 (amended): the capability in display.rs behaves as claimed —
its provided default renders through Debug and the str impl renders
bare strings verbatim — but the Record's emission renders the action
through the action type's standard Display bound, inserting that text
verbatim after `request: [`; the capability is never consulted. -/
theorem c9_capability_default_and_record {A : Type} (p : Nat → Bool)
    (v6R : List Nat → List Nat) (actionR : A → List Nat) (eR : List Nat)
    (debugR : A → List Nat) (sdebugR : List Nat → List Nat)
    (r : LogRequest A) (a : A) (t : List Nat)
    (ha : r.action = some a) (h : recordRender p v6R actionR eR r = some t) :
    (defaultLogDisplay debugR).logR = debugR ∧
    (∀ s, (strLogDisplay sdebugR).logR s = s) ∧
    (∃ u, t = codes "request: [" ++ actionR a ++ [0x3a] ++ u) := by
  refine ⟨rfl, fun s => rfl, ?_⟩
  obtain ⟨us, fs, ht, ut, rt, h1, h2, h3, h4, h5, heq⟩ := recordRender_eq_some h
  rw [ha] at heq
  refine ⟨(match r.status with
      | some s => natDecimal s
      | none => codes "???") ++
    codes "] " ++ us ++ remoteRender v6R r.remote ++ fs ++
    [0x20] ++ ht ++ [0x20] ++ r.method ++ [0x20] ++ r.uri ++
    [0x20] ++ r.version ++ [0x20] ++ ut ++ [0x20] ++ rt ++
    [0x20] ++ eR ++ [0x0a], ?_⟩
  rw [heq]
  simp [List.append_assoc]

/-- Witness for C9 at sampleActionRecord. -/
theorem c9_capability_default_and_record_witness :
    (defaultLogDisplay stringDebugQuote).logR = stringDebugQuote ∧
    (∀ s, (strLogDisplay stringDebugQuote).logR s = s) ∧
    (∃ u, codes "request: [x:???] <unknown-remote> \"\" GET / HTTP/1.1 \"\" \"\" 1ms\n" =
      codes "request: [" ++ (fun s => s) (codes "x") ++ [0x3a] ++ u) :=
  c9_capability_default_and_record printableAscii (fun _ => [])
    (fun s => s) (codes "1ms") stringDebugQuote stringDebugQuote
    sampleActionRecord (codes "x")
    (codes "request: [x:???] <unknown-remote> \"\" GET / HTTP/1.1 \"\" \"\" 1ms\n")
    rfl (by decide)

/-- C10: a successful emission decomposes so that exactly the user,
forwarded-for (after marker stripping), host, user-agent and referer
fields pass through the Encoder, while the action text, method, uri,
version and elapsed renderings are interpolated plainly; and, when
printability is false on control characters, no character below 0x20
occurs in any encoder-produced segment, so user-supplied bytes in the
escaped fields cannot inject control characters — whereas the action
text is inserted verbatim. -/
theorem c10_escaped_fields {A : Type} (p : Nat → Bool)
    (v6R : List Nat → List Nat) (actionR : A → List Nat) (eR : List Nat)
    (r : LogRequest A) (t : List Nat)
    (h : recordRender p v6R actionR eR r = some t) :
    ∃ userSeg fwdSeg hostTok uaTok refTok,
      ((r.user = none ∧ userSeg = []) ∨
        (∃ u ut, r.user = some u ∧ escapedRender p u = some ut ∧
          userSeg = ut ++ [0x20])) ∧
      ((r.fwd = none ∧ fwdSeg = []) ∨
        (∃ fw ft, r.fwd = some fw ∧
          escapedRender p (stripMappedMarker fw) = some ft ∧
          fwdSeg = [0x2f] ++ ft)) ∧
      escapedRender p (r.host.getD []) = some hostTok ∧
      escapedRender p (r.userAgent.getD []) = some uaTok ∧
      escapedRender p (r.referer.getD []) = some refTok ∧
      t = codes "request: [" ++
        (match r.action with
         | some a => actionR a ++ [0x3a]
         | none => []) ++
        (match r.status with
         | some s => natDecimal s
         | none => codes "???") ++
        codes "] " ++ userSeg ++ remoteRender v6R r.remote ++ fwdSeg ++
        [0x20] ++ hostTok ++ [0x20] ++ r.method ++ [0x20] ++ r.uri ++
        [0x20] ++ r.version ++ [0x20] ++ uaTok ++ [0x20] ++ refTok ++
        [0x20] ++ eR ++ [0x0a] ∧
      ((∀ c, c < 0x20 → p c = false) →
        (∀ b ∈ r.user.getD [], b < 256) → (∀ b ∈ r.fwd.getD [], b < 256) →
        (∀ b ∈ r.host.getD [], b < 256) →
        (∀ b ∈ r.userAgent.getD [], b < 256) →
        (∀ b ∈ r.referer.getD [], b < 256) →
        ∀ x, (x ∈ userSeg ∨ x ∈ fwdSeg ∨ x ∈ hostTok ∨ x ∈ uaTok ∨
          x ∈ refTok) → 0x20 ≤ x) := by
  obtain ⟨us, fs, ht, ut, rt, h1, h2, h3, h4, h5, heq⟩ := recordRender_eq_some h
  refine ⟨us, fs, ht, ut, rt, ?_, ?_, h3, h4, h5, heq, ?_⟩
  · cases hu : r.user with
    | none =>
      rw [hu] at h1
      cases h1
      exact Or.inl ⟨rfl, rfl⟩
    | some u =>
      rw [hu] at h1
      obtain ⟨tok, htok, rfl⟩ := Option.map_eq_some'.1 h1
      exact Or.inr ⟨u, tok, rfl, htok, rfl⟩
  · cases hf : r.fwd with
    | none =>
      rw [hf] at h2
      cases h2
      exact Or.inl ⟨rfl, rfl⟩
    | some fw =>
      rw [hf] at h2
      obtain ⟨tok, htok, rfl⟩ := Option.map_eq_some'.1 h2
      exact Or.inr ⟨fw, tok, rfl, htok, rfl⟩
  · intro hp hbU hbF hbH hbA hbR x hx
    have hchar : ∀ {bs tk : List Nat}, (∀ b ∈ bs, b < 256) →
        escapedRender p bs = some tk → ∀ y ∈ tk, 0x20 ≤ y := by
      intro bs tk hbb htk y hy
      rcases (escapedRender_props hbb htk).2.2.2.1 y hy with hg | hpy
      · simp only [isAsciiGraphic, Bool.and_eq_true, decide_eq_true_eq] at hg
        omega
      · by_contra hlt
        rw [hp y (by omega)] at hpy
        cases hpy
    rcases hx with hx | hx | hx | hx | hx
    · cases hu : r.user with
      | none =>
        rw [hu] at h1
        cases h1
        simp at hx
      | some u =>
        rw [hu] at h1
        obtain ⟨tok, htok, hus⟩ := Option.map_eq_some'.1 h1
        rw [← hus] at hx
        rcases List.mem_append.1 hx with hx | hx
        · exact hchar (by rw [hu] at hbU; simpa using hbU) htok x hx
        · simp only [List.mem_singleton] at hx
          omega
    · cases hf : r.fwd with
      | none =>
        rw [hf] at h2
        cases h2
        simp at hx
      | some fw =>
        rw [hf] at h2
        obtain ⟨tok, htok, hfs⟩ := Option.map_eq_some'.1 h2
        rw [← hfs] at hx
        rcases List.mem_append.1 hx with hx | hx
        · simp only [List.mem_singleton] at hx
          omega
        · refine hchar ?_ htok x hx
          intro b hbm
          have hbfw : b ∈ fw := stripMappedMarker_subset b hbm
          rw [hf] at hbF
          exact hbF b (by simpa using hbfw)
    · exact hchar hbH h3 x hx
    · exact hchar hbA h4 x hx
    · exact hchar hbR h5 x hx

/-- Witness for C10 at sampleRecord. -/
theorem c10_escaped_fields_witness :
    ∃ userSeg fwdSeg hostTok uaTok refTok,
      ((sampleRecord.user = none ∧ userSeg = []) ∨
        (∃ u ut, sampleRecord.user = some u ∧
          escapedRender printableAscii u = some ut ∧
          userSeg = ut ++ [0x20])) ∧
      ((sampleRecord.fwd = none ∧ fwdSeg = []) ∨
        (∃ fw ft, sampleRecord.fwd = some fw ∧
          escapedRender printableAscii (stripMappedMarker fw) = some ft ∧
          fwdSeg = [0x2f] ++ ft)) ∧
      escapedRender printableAscii (sampleRecord.host.getD []) =
        some hostTok ∧
      escapedRender printableAscii (sampleRecord.userAgent.getD []) =
        some uaTok ∧
      escapedRender printableAscii (sampleRecord.referer.getD []) =
        some refTok ∧
      sampleLine = codes "request: [" ++
        (match sampleRecord.action with
         | some a => (fun s => s) a ++ [0x3a]
         | none => []) ++
        (match sampleRecord.status with
         | some s => natDecimal s
         | none => codes "???") ++
        codes "] " ++ userSeg ++
        remoteRender (fun _ => []) sampleRecord.remote ++ fwdSeg ++
        [0x20] ++ hostTok ++ [0x20] ++ sampleRecord.method ++ [0x20] ++
        sampleRecord.uri ++ [0x20] ++ sampleRecord.version ++ [0x20] ++
        uaTok ++ [0x20] ++ refTok ++ [0x20] ++ codes "1ms" ++ [0x0a] ∧
      ((∀ c, c < 0x20 → printableAscii c = false) →
        (∀ b ∈ sampleRecord.user.getD [], b < 256) →
        (∀ b ∈ sampleRecord.fwd.getD [], b < 256) →
        (∀ b ∈ sampleRecord.host.getD [], b < 256) →
        (∀ b ∈ sampleRecord.userAgent.getD [], b < 256) →
        (∀ b ∈ sampleRecord.referer.getD [], b < 256) →
        ∀ x, (x ∈ userSeg ∨ x ∈ fwdSeg ∨ x ∈ hostTok ∨ x ∈ uaTok ∨
          x ∈ refTok) → 0x20 ≤ x) :=
  c10_escaped_fields printableAscii (fun _ => []) (fun s => s) (codes "1ms")
    sampleRecord sampleLine (by decide)
